import Mathlib

/-!
Verification development for the NYC mayoral primary dashboard
(src/maps_dashboard.py).

The script is a single-page Streamlit report. The logic it contains is:

* `download_file` (lines 29-44): materialize a release asset locally if it
  is missing, fetching it over HTTP from a fixed base URL;
* `load_html_text` (lines 120-132): read an HTML file, minifying it when it
  is large and the optional minifier is importable, memoized by
  `st.cache_data` on the pair (path, minify flag);
* `render_html_now` (lines 134-139): render a local HTML file in an iframe,
  or report a missing file;
* sidebar sliders (lines 144-146) bounding the iframe heights;
* spreadsheet sections offering a CSV export of the displayed table.

Effectful Python is embedded as explicit state passing: a `World` carries
the byte-level filesystem, the network oracle and a write-failure oracle;
each embedded operation returns the new state together with a trace of
observable events (network requests, UI notices, iframe renders).
-/

/-- A byte of file content, as a natural number. -/
abbrev Byte := Nat

/-- Outcome of the single `requests.get(url)` call: either the request
itself raises (connection failure), or a response with an HTTP status code
and a byte body comes back. -/
inductive NetResult where
  | err : NetResult
  | resp (status : Nat) (body : List Byte) : NetResult

/-- The state `download_file` touches: the local filesystem (path to byte
content), the network oracle (URL to result of a GET), and an oracle saying
whether the mkdir/open/write step raises a filesystem error for a path. -/
structure World where
  fs : String → Option (List Byte)
  net : String → NetResult
  writeFails : String → Bool

/-- Observable events of one `download_file` call, in program order:
the `st.info` notice, the HTTP GET, the creation of the parent directories
of the target (`local_path.parent.mkdir(parents=True, exist_ok=True)`),
and the closing `st.success` or `st.error` notice. The exception detail
interpolated into the real error message is elided. -/
inductive DlEvent where
  | info (msg : String)
  | netGet (url : String)
  | mkdirParents (target : String)
  | success (msg : String)
  | error (msg : String)
deriving DecidableEq

/-- Line 23 of the source. -/
def USER : String := "izikn-tooz"

/-- Line 24 of the source. -/
def REPO : String := "NYCmayoralPrimaryanalysis"

/-- Line 25 of the source: the published release tag. -/
def TAG : String := "v1Maps"

/-- Line 27: fixed base origin for release downloads. -/
def DOWNLOAD_BASE : String :=
  "https://github.com/" ++ USER ++ "/" ++ REPO ++ "/releases/download/" ++ TAG ++ "/"

/-- The error notice text of line 43 (exception detail elided). -/
def fetchErrMsg (remote_name url : String) : String :=
  "Failed to fetch " ++ remote_name ++ " from " ++ url

/-- Shallow embedding of `download_file` (lines 29-44). Returns the new
world, the event trace, and the returned path. The early-return branch
(line 31-32) does nothing when the path exists. Otherwise the URL is the
base origin concatenated with the remote name, one GET is performed,
`raise_for_status` raises exactly when the status is in [400, 600), the
parent directories are created and the full body is written; every raised
error is caught and reported via `st.error`, and the function returns
`local_path` on every control path. -/
def download_file (w : World) (remote_name : String) (local_path : String) :
    World × List DlEvent × String :=
  if (w.fs local_path).isSome then
    (w, [], local_path)
  else
    let url := DOWNLOAD_BASE ++ remote_name
    let evInfo := DlEvent.info ("Fetching " ++ remote_name ++ " from GitHub Releases…")
    match w.net url with
    | NetResult.err =>
        (w, [evInfo, DlEvent.netGet url, DlEvent.error (fetchErrMsg remote_name url)],
         local_path)
    | NetResult.resp status body =>
        if 400 ≤ status ∧ status < 600 then
          (w, [evInfo, DlEvent.netGet url, DlEvent.error (fetchErrMsg remote_name url)],
           local_path)
        else if w.writeFails local_path then
          (w, [evInfo, DlEvent.netGet url, DlEvent.mkdirParents local_path,
               DlEvent.error (fetchErrMsg remote_name url)],
           local_path)
        else
          ({ w with fs := fun p => if p = local_path then some body else w.fs p },
           [evInfo, DlEvent.netGet url, DlEvent.mkdirParents local_path,
            DlEvent.success ("Downloaded " ++ remote_name)],
           local_path)

/-- Recognizer for the HTTP GET event. -/
def isNetGet : DlEvent → Bool
  | DlEvent.netGet _ => true
  | _ => false

/-- Number of HTTP GET requests for a given URL in a trace. -/
def countNetGet (evs : List DlEvent) (url : String) : Nat :=
  (evs.filter (fun e => e = DlEvent.netGet url)).length

/-- Remote asset name of the full-width overlay map (line 52). -/
def FULL_CENTER_NAME : String := "overlay_results_top_with_slider_dots_bottom_static.html"

/-- Local path of the full-width overlay map (line 53). -/
def FULL_CENTER_PATH : String :=
  "Primary Maps/overlay_results_top_with_slider_dots_bottom_static.html"

/-- Remote asset name of the bottom-left heatmap (line 56). -/
def BOTTOM_LEFT_NAME : String := "personal_diversity_heatmap_no_water_overlap.html"

/-- Local path of the bottom-left heatmap (line 57). -/
def BOTTOM_LEFT_MAP_PATH : String :=
  "Primary Maps/personal_diversity_heatmap_no_water_overlap.html"

/-- Remote asset name of the bottom-right heatmap (line 60). -/
def BOTTOM_RIGHT_NAME : String := "shannon_index_heatmap_no_water_overlap.html"

/-- Local path of the bottom-right heatmap (line 61). -/
def BOTTOM_RIGHT_MAP_PATH : String :=
  "Primary Maps/shannon_index_heatmap_no_water_overlap.html"

/-- The three module-level `download_file` calls (lines 51-62), executed in
order on every run of the script. -/
def scriptDownloads (w : World) : World × List DlEvent :=
  let r1 := download_file w FULL_CENTER_NAME FULL_CENTER_PATH
  let r2 := download_file r1.1 BOTTOM_LEFT_NAME BOTTOM_LEFT_MAP_PATH
  let r3 := download_file r2.1 BOTTOM_RIGHT_NAME BOTTOM_RIGHT_MAP_PATH
  (r3.1, r1.2.1 ++ (r2.2.1 ++ r3.2.1))

/-- A Streamlit process lifetime: the script re-runs top to bottom on every
viewer interaction, threading the world through consecutive runs. -/
def processRuns (w : World) : Nat → World × List DlEvent
  | 0 => (w, [])
  | n + 1 =>
      let r := scriptDownloads w
      let rest := processRuns r.1 n
      (rest.1, r.2 ++ rest.2)

/-- A world whose filesystem holds one demo asset, used to instantiate
theorems with hypotheses at concrete inputs. -/
def demoWorld : World where
  fs := fun p => if p = ("a.html" : String) then some [1, 2, 3] else none
  net := fun _ => NetResult.resp 200 [7, 7]
  writeFails := fun _ => false

/-- A world with an empty filesystem whose every GET fails. -/
def emptyFailWorld : World where
  fs := fun _ => none
  net := fun _ => NetResult.err
  writeFails := fun _ => false

/-- The fetch attempt for a missing asset fails: the GET raises, or the
status makes `raise_for_status` raise, or the mkdir/open/write raises. -/
def fetchFails (w : World) (remote_name local_path : String) : Prop :=
  match w.net (DOWNLOAD_BASE ++ remote_name) with
  | NetResult.err => True
  | NetResult.resp status _ =>
      (400 ≤ status ∧ status < 600) ∨ w.writeFails local_path = true

/-- Claim C1: when the file at `local_path` already exists,
`download_file` returns `local_path` immediately, performs no network
request and no event at all, and leaves the world (hence the file)
unchanged; in particular any call after the asset exists performs zero
network calls. -/
theorem download_file_exists_noop (w : World) (rn lp : String)
    (h : (w.fs lp).isSome = true) :
    download_file w rn lp = (w, [], lp) ∧
    countNetGet (download_file w rn lp).2.1 (DOWNLOAD_BASE ++ rn) = 0 := by
  simp [download_file, h, countNetGet]

/-- Witness for C1 at a concrete world and path. -/
theorem download_file_exists_noop_witness :
    (demoWorld.fs ("a.html")).isSome = true ∧
    (download_file demoWorld ("x") ("a.html") = (demoWorld, [], "a.html") ∧
     countNetGet (download_file demoWorld ("x") ("a.html")).2.1
       (DOWNLOAD_BASE ++ "x") = 0) :=
  ⟨by decide, download_file_exists_noop demoWorld ("x") ("a.html") (by decide)⟩

/-- Claim C2: when `local_path` is absent and the fetch fails with any
network, HTTP-status or filesystem error, the error is caught inside
`download_file`, an `st.error` notice is emitted, and the function still
returns `local_path` (the embedding is a total function: no exception
escapes). -/
theorem download_file_error_caught (w : World) (rn lp : String)
    (habs : (w.fs lp).isSome = false) (hf : fetchFails w rn lp) :
    (download_file w rn lp).2.2 = lp ∧
    DlEvent.error (fetchErrMsg rn (DOWNLOAD_BASE ++ rn)) ∈ (download_file w rn lp).2.1 := by
  unfold download_file
  simp only [habs]
  unfold fetchFails at hf
  cases hnet : w.net (DOWNLOAD_BASE ++ rn) with
  | err => simp
  | resp status body =>
      rw [hnet] at hf
      rcases hf with hst | hw
      · simp [hst]
      · by_cases hst : 400 ≤ status ∧ status < 600
        · simp [hst]
        · simp [hst, hw]

/-- Witness for C2 at a concrete world. -/
theorem download_file_error_caught_witness :
    ((emptyFailWorld.fs ("b.html")).isSome = false ∧
       fetchFails emptyFailWorld ("b") ("b.html")) ∧
    ((download_file emptyFailWorld ("b") ("b.html")).2.2 = "b.html" ∧
      DlEvent.error (fetchErrMsg ("b") (DOWNLOAD_BASE ++ "b")) ∈
        (download_file emptyFailWorld ("b") ("b.html")).2.1) :=
  ⟨⟨by decide, by constructor⟩,
   download_file_error_caught emptyFailWorld ("b") ("b.html") (by decide) (by constructor)⟩

/-- Claim C3: when `local_path` is absent and the fetch succeeds, the URL
is the fixed base origin concatenated with `remote_name`, exactly one GET
(with that URL) appears in the trace, the parent directories of
`local_path` are created, the full response body is written to
`local_path` byte-identically, and `local_path` is returned. -/
theorem download_file_success (w : World) (rn lp : String) (status : Nat) (body : List Byte)
    (habs : (w.fs lp).isSome = false)
    (hnet : w.net (DOWNLOAD_BASE ++ rn) = NetResult.resp status body)
    (hok : ¬(400 ≤ status ∧ status < 600))
    (hw : w.writeFails lp = false) :
    (download_file w rn lp).1.fs lp = some body ∧
    (download_file w rn lp).2.1.filter (fun e => isNetGet e) =
      [DlEvent.netGet (DOWNLOAD_BASE ++ rn)] ∧
    DlEvent.mkdirParents lp ∈ (download_file w rn lp).2.1 ∧
    (download_file w rn lp).2.2 = lp := by
  unfold download_file
  simp [habs, hnet, hok, hw, isNetGet]

/-- Witness for C3 at a concrete world: `demoWorld` answers every GET with
status 200 and body [7, 7], and the path `c.html` is absent. -/
theorem download_file_success_witness :
    ((demoWorld.fs ("c.html")).isSome = false ∧
       demoWorld.net (DOWNLOAD_BASE ++ "c") = NetResult.resp 200 [7, 7] ∧
       ¬(400 ≤ 200 ∧ 200 < 600) ∧ demoWorld.writeFails ("c.html") = false) ∧
    ((download_file demoWorld ("c") ("c.html")).1.fs ("c.html") = some [7, 7] ∧
     (download_file demoWorld ("c") ("c.html")).2.1.filter (fun e => isNetGet e) =
       [DlEvent.netGet (DOWNLOAD_BASE ++ "c")] ∧
     DlEvent.mkdirParents ("c.html") ∈ (download_file demoWorld ("c") ("c.html")).2.1 ∧
     (download_file demoWorld ("c") ("c.html")).2.2 = "c.html") :=
  ⟨⟨by decide, rfl, by decide, by decide⟩,
   download_file_success demoWorld ("c") ("c.html") 200 [7, 7]
     (by decide) rfl (by decide) (by decide)⟩

/-- Claim C7: when `local_path` is absent and the fetch fails with a
network or HTTP-status error, the error is raised before the write, so the
world is unchanged and the asset remains absent. -/
theorem download_file_fail_leaves_absent (w : World) (rn lp : String)
    (habs : (w.fs lp).isSome = false)
    (hf : w.net (DOWNLOAD_BASE ++ rn) = NetResult.err ∨
          ∃ status body, w.net (DOWNLOAD_BASE ++ rn) = NetResult.resp status body ∧
            400 ≤ status ∧ status < 600) :
    (download_file w rn lp).1 = w ∧ (download_file w rn lp).1.fs lp = none := by
  have hnone : w.fs lp = none := by
    cases hcase : w.fs lp with
    | none => rfl
    | some v => rw [hcase] at habs; simp at habs
  unfold download_file
  rcases hf with hnet | ⟨status, body, hnet, h4, h6⟩
  · simp [habs, hnet, hnone]
  · simp [habs, hnet, h4, h6, hnone]

/-- Witness for C7 at a concrete world whose every GET fails. -/
theorem download_file_fail_leaves_absent_witness :
    ((emptyFailWorld.fs ("d.html")).isSome = false ∧
       emptyFailWorld.net (DOWNLOAD_BASE ++ "d") = NetResult.err) ∧
    ((download_file emptyFailWorld ("d") ("d.html")).1 = emptyFailWorld ∧
     (download_file emptyFailWorld ("d") ("d.html")).1.fs ("d.html") = none) :=
  ⟨⟨by decide, rfl⟩,
   download_file_fail_leaves_absent emptyFailWorld ("d") ("d.html")
     (by decide) (Or.inl rfl)⟩

/-- The optional minifier environment: whether `import htmlmin` succeeded
(line 113-118) and, abstractly, the transform `htmlmin.minify` applies with
the keyword options of lines 125-131. -/
structure HtmlEnv where
  haveHtmlmin : Bool
  minify : String → String

/-- Shallow embedding of the body of `load_html_text` (lines 120-132),
without the `st.cache_data` wrapper: read the text of `p` from the textual
filesystem (`none` means `read_text` raises), and minify exactly when the
minify flag is set, the minifier is importable, and the text is longer than
200,000 characters. -/
def load_html_text (env : HtmlEnv) (tfs : String → Option String) (p : String)
    (do_minify : Bool) : Option String :=
  match tfs p with
  | none => none
  | some txt =>
      if do_minify = true ∧ env.haveHtmlmin = true ∧ 200000 < txt.length then
        some (env.minify txt)
      else some txt

/-- The `st.cache_data` memoization table, keyed by the argument pair
(path, minify flag). -/
abbrev HtmlCache := List ((String × Bool) × String)

/-- Lookup in the memoization table. -/
def cacheLookup : HtmlCache → String × Bool → Option String
  | [], _ => none
  | e :: c, k => if e.1 = k then some e.2 else cacheLookup c k

/-- `load_html_text` as the page calls it, under its `st.cache_data`
wrapper (line 120): on a cache hit the stored value is returned with zero
storage reads; on a miss the body runs (one storage read) and a successful
result is stored. A raising body is not cached. Returns the value, the new
cache, and the number of storage reads performed. -/
def load_html_text_cached (env : HtmlEnv) (tfs : String → Option String)
    (c : HtmlCache) (p : String) (do_minify : Bool) :
    Option String × HtmlCache × Nat :=
  match cacheLookup c (p, do_minify) with
  | some v => (some v, c, 0)
  | none =>
      match load_html_text env tfs p do_minify with
      | some v => (some v, ((p, do_minify), v) :: c, 1)
      | none => (none, c, 1)

/-- Claim C4: with the file readable, the raw text is returned exactly
unchanged whenever its length is at most 200,000, or the minifier is
unavailable, or the minify flag is false; the transform is applied exactly
when all three conditions hold. -/
theorem load_html_text_threshold (env : HtmlEnv) (tfs : String → Option String)
    (p : String) (m : Bool) (txt : String) (hread : tfs p = some txt) :
    ((txt.length ≤ 200000 ∨ env.haveHtmlmin = false ∨ m = false) →
       load_html_text env tfs p m = some txt) ∧
    ((200000 < txt.length ∧ env.haveHtmlmin = true ∧ m = true) →
       load_html_text env tfs p m = some (env.minify txt)) := by
  constructor
  · intro h
    have hcond : ¬(m = true ∧ env.haveHtmlmin = true ∧ 200000 < txt.length) := by
      rintro ⟨hm, hh, hlen⟩
      rcases h with h | h | h
      · omega
      · rw [h] at hh; exact Bool.false_ne_true hh
      · rw [h] at hm; exact Bool.false_ne_true hm
    simp only [load_html_text, hread]
    rw [if_neg hcond]
  · rintro ⟨hlen, hh, hm⟩
    simp only [load_html_text, hread]
    rw [if_pos ⟨hm, hh, hlen⟩]

/-- A concrete minifier environment for witnesses. -/
def demoEnv : HtmlEnv where
  haveHtmlmin := true
  minify := fun _ => ("m")

/-- A concrete textual filesystem holding one small page. -/
def demoTfs : String → Option String :=
  fun p => if p = ("f.html" : String) then some ("<p>hi</p>") else none

/-- Witness for C4 at a concrete environment, file and flag. -/
theorem load_html_text_threshold_witness :
    demoTfs ("f.html") = some ("<p>hi</p>") ∧
    ((("<p>hi</p>" : String).length ≤ 200000 ∨ demoEnv.haveHtmlmin = false ∨ true = false) →
       load_html_text demoEnv demoTfs ("f.html") true = some ("<p>hi</p>")) ∧
    ((200000 < ("<p>hi</p>" : String).length ∧ demoEnv.haveHtmlmin = true ∧ true = true) →
       load_html_text demoEnv demoTfs ("f.html") true = some (demoEnv.minify ("<p>hi</p>"))) :=
  ⟨by decide,
   (load_html_text_threshold demoEnv demoTfs ("f.html") true ("<p>hi</p>") (by decide)).1,
   (load_html_text_threshold demoEnv demoTfs ("f.html") true ("<p>hi</p>") (by decide)).2⟩

/-- Claim C5: the loader is memoized on the key (path, minify flag). With
the file readable, a second call with the same key on the cache produced by
a first call returns the same text and performs zero storage reads; and on
a key not yet in the cache the memoized loader returns exactly what the
uncached read-then-maybe-minify body returns. -/
theorem load_html_text_cached_memo (env : HtmlEnv) (tfs : String → Option String)
    (c : HtmlCache) (p : String) (m : Bool) (txt : String)
    (hread : tfs p = some txt) :
    ((load_html_text_cached env tfs
        (load_html_text_cached env tfs c p m).2.1 p m).1 =
       (load_html_text_cached env tfs c p m).1 ∧
     (load_html_text_cached env tfs
        (load_html_text_cached env tfs c p m).2.1 p m).2.2 = 0) ∧
    (cacheLookup c (p, m) = none →
       (load_html_text_cached env tfs c p m).1 = load_html_text env tfs p m) := by
  have hbody : ∃ v, load_html_text env tfs p m = some v := by
    unfold load_html_text
    rw [hread]
    by_cases h : m = true ∧ env.haveHtmlmin = true ∧ 200000 < txt.length
    · exact ⟨env.minify txt, if_pos h⟩
    · exact ⟨txt, if_neg h⟩
  rcases hbody with ⟨v, hv⟩
  constructor
  · cases hc : cacheLookup c (p, m) with
    | some w => simp [load_html_text_cached, hc]
    | none => simp [load_html_text_cached, hc, hv, cacheLookup]
  · intro hnone
    simp [load_html_text_cached, hnone, hv]

/-- Witness for C5 at a concrete environment, empty cache and key. -/
theorem load_html_text_cached_memo_witness :
    demoTfs ("f.html") = some ("<p>hi</p>") ∧
    (((load_html_text_cached demoEnv demoTfs
         (load_html_text_cached demoEnv demoTfs [] ("f.html") true).2.1 ("f.html") true).1 =
        (load_html_text_cached demoEnv demoTfs [] ("f.html") true).1 ∧
      (load_html_text_cached demoEnv demoTfs
         (load_html_text_cached demoEnv demoTfs [] ("f.html") true).2.1 ("f.html") true).2.2 = 0) ∧
     (cacheLookup [] (("f.html", true)) = none →
        (load_html_text_cached demoEnv demoTfs [] ("f.html") true).1 =
          load_html_text demoEnv demoTfs ("f.html") true)) :=
  ⟨by decide,
   load_html_text_cached_memo demoEnv demoTfs [] ("f.html") true ("<p>hi</p>") (by decide)⟩

/-- Observable UI events of the rendering helpers: a storage read, an
`st.error` notice, or an `st_html` iframe injection with the rendered text,
the height and the optional pixel width. -/
inductive UiEvent where
  | readFile (p : String)
  | errorNote (msg : String)
  | htmlFrame (content : String) (height : Nat) (width : Option Nat)
deriving DecidableEq

/-- Shallow embedding of `render_html_now` (lines 134-139): a missing path
produces only the `st.error` notice and leaves the cache untouched;
otherwise the memoized loader runs (emitting one read event per storage
read it performs) and the text is injected into an iframe via `st_html`. -/
def render_html_now (env : HtmlEnv) (tfs : String → Option String) (c : HtmlCache)
    (path : String) (height : Nat) (width_px : Option Nat) (minify : Bool) :
    List UiEvent × HtmlCache :=
  if (tfs path).isSome then
    let r := load_html_text_cached env tfs c path minify
    (List.replicate r.2.2 (UiEvent.readFile path) ++
       [UiEvent.htmlFrame (r.1.getD ("")) height width_px], r.2.1)
  else
    ([UiEvent.errorNote ("File not found: " ++ path)], c)

/-- One embedded-document display section of the page: its file path, its
iframe height and its fixed pixel width. -/
structure Sec where
  path : String
  height : Nat
  width_px : Option Nat

/-- Render a list of embedded-document sections in page order (each with
minify set, as on lines 182, 206 and 226), threading the memoization cache;
returns the per-section event lists and the final cache. -/
def renderSecs (env : HtmlEnv) (tfs : String → Option String) :
    List Sec → HtmlCache → List (List UiEvent) × HtmlCache
  | [], c => ([], c)
  | s :: ss, c =>
      let r := render_html_now env tfs c s.path s.height s.width_px true
      let rest := renderSecs env tfs ss r.2
      (r.1 :: rest.1, rest.2)

/-- Splitting lemma for C6: a page containing a section with a missing
file renders as the sections before it, then the lone error notice, then
the sections after it exactly as they render without the broken section. -/
theorem renderSecs_append_missing (env : HtmlEnv) (tfs : String → Option String)
    (p : String) (ht : Nat) (wd : Option Nat) (hmiss : tfs p = none) :
    ∀ (xs ys : List Sec) (c : HtmlCache),
    renderSecs env tfs (xs ++ Sec.mk p ht wd :: ys) c =
      ((renderSecs env tfs xs c).1 ++
         [UiEvent.errorNote ("File not found: " ++ p)] ::
           (renderSecs env tfs ys (renderSecs env tfs xs c).2).1,
       (renderSecs env tfs ys (renderSecs env tfs xs c).2).2) := by
  intro xs
  induction xs with
  | nil =>
      intro ys c
      simp [renderSecs, render_html_now, hmiss]
  | cons s ss ih =>
      intro ys c
      simp only [List.cons_append, renderSecs, List.append_eq, ih]

/-- Claim C6: a section whose file is absent emits exactly the missing-file
error notice — no storage read, no iframe injection — and leaves the cache
unchanged, so every other section of the page renders exactly as it would
if the broken section were not there at all. -/
theorem render_missing_isolated (env : HtmlEnv) (tfs : String → Option String)
    (c : HtmlCache) (xs ys : List Sec) (p : String) (ht : Nat) (wd : Option Nat)
    (mfy : Bool) (hmiss : tfs p = none) :
    render_html_now env tfs c p ht wd mfy =
      ([UiEvent.errorNote ("File not found: " ++ p)], c) ∧
    (renderSecs env tfs (xs ++ Sec.mk p ht wd :: ys) c).1 =
      (renderSecs env tfs xs c).1 ++
        [UiEvent.errorNote ("File not found: " ++ p)] ::
          (renderSecs env tfs ys (renderSecs env tfs xs c).2).1 ∧
    (renderSecs env tfs (xs ++ Sec.mk p ht wd :: ys) c).2 =
      (renderSecs env tfs ys (renderSecs env tfs xs c).2).2 := by
  have hone : render_html_now env tfs c p ht wd mfy =
      ([UiEvent.errorNote ("File not found: " ++ p)], c) := by
    unfold render_html_now
    rw [hmiss]
    rfl
  have hsplit := renderSecs_append_missing env tfs p ht wd hmiss xs ys c
  exact ⟨hone, by rw [hsplit], by rw [hsplit]⟩

/-- Witness for C6: the middle of three sections points at a missing file;
the other two render exactly as without it. -/
theorem render_missing_isolated_witness :
    demoTfs ("g.html") = none ∧
    (render_html_now demoEnv demoTfs [] ("g.html") 600 (some 2200) true =
       ([UiEvent.errorNote ("File not found: " ++ "g.html")], []) ∧
     (renderSecs demoEnv demoTfs
        ([Sec.mk ("f.html") 600 (some 2200)] ++
          Sec.mk ("g.html") 600 (some 2200) :: [Sec.mk ("f.html") 500 (some 1200)]) []).1 =
       (renderSecs demoEnv demoTfs [Sec.mk ("f.html") 600 (some 2200)] []).1 ++
         [UiEvent.errorNote ("File not found: " ++ "g.html")] ::
           (renderSecs demoEnv demoTfs [Sec.mk ("f.html") 500 (some 1200)]
             (renderSecs demoEnv demoTfs [Sec.mk ("f.html") 600 (some 2200)] []).2).1 ∧
     (renderSecs demoEnv demoTfs
        ([Sec.mk ("f.html") 600 (some 2200)] ++
          Sec.mk ("g.html") 600 (some 2200) :: [Sec.mk ("f.html") 500 (some 1200)]) []).2 =
       (renderSecs demoEnv demoTfs [Sec.mk ("f.html") 500 (some 1200)]
         (renderSecs demoEnv demoTfs [Sec.mk ("f.html") 600 (some 2200)] []).2).2) :=
  ⟨by decide,
   render_missing_isolated demoEnv demoTfs []
     [Sec.mk ("f.html") 600 (some 2200)] [Sec.mk ("f.html") 500 (some 1200)]
     ("g.html") 600 (some 2200) true (by decide)⟩

/-- Line 78 of the source. -/
def DEFAULT_FULL_HEIGHT : Nat := 600

/-- Line 79 of the source. -/
def DEFAULT_PAIR_HEIGHT : Nat := 600

/-- Semantics of `st.sidebar.slider(label, lo, hi, dflt, step)`: an
untouched slider yields the default; a viewer selection is clamped to the
range and snapped down onto the step grid anchored at `lo`, so the widget
can only ever hand the script a value between `lo` and `hi`. -/
def sliderVal (lo hi dflt step : Nat) : Option Nat → Nat
  | none => dflt
  | some v =>
      if v ≤ lo then lo
      else if hi ≤ v then hi
      else lo + ((v - lo) / step) * step

/-- The viewer-controlled state of the two sidebar sliders: `none` means
the control was never moved. -/
structure ViewerInput where
  fullSel : Option Nat
  pairSel : Option Nat

/-- Line 145: the full-width map height slider (400 to 1600, default 600,
step 10). -/
def full_h (inp : ViewerInput) : Nat :=
  sliderVal 400 1600 DEFAULT_FULL_HEIGHT 10 inp.fullSel

/-- Line 146: the bottom-pair height slider (300 to 1400, default 600,
step 10). -/
def pair_h (inp : ViewerInput) : Nat :=
  sliderVal 300 1400 DEFAULT_PAIR_HEIGHT 10 inp.pairSel

/-- The three embedded-frame sections of the page with the heights and
widths the script passes them (lines 182, 206 and 226). -/
def pageSecs (inp : ViewerInput) : List Sec :=
  [Sec.mk FULL_CENTER_PATH (full_h inp) (some 2200),
   Sec.mk BOTTOM_LEFT_MAP_PATH (pair_h inp) (some 1200),
   Sec.mk BOTTOM_RIGHT_MAP_PATH (pair_h inp) (some 1200)]

/-- A slider value always lies between its bounds when the default does. -/
theorem sliderVal_bounds (lo hi dflt step : Nat) (sel : Option Nat)
    (hd1 : lo ≤ dflt) (hd2 : dflt ≤ hi) :
    lo ≤ sliderVal lo hi dflt step sel ∧ sliderVal lo hi dflt step sel ≤ hi := by
  cases sel with
  | none => exact ⟨hd1, hd2⟩
  | some v =>
      simp only [sliderVal]
      by_cases h1 : v ≤ lo
      · rw [if_pos h1]
        exact ⟨Nat.le_refl lo, Nat.le_trans hd1 hd2⟩
      · rw [if_neg h1]
        by_cases h2 : hi ≤ v
        · rw [if_pos h2]
          exact ⟨Nat.le_trans hd1 hd2, Nat.le_refl hi⟩
        · rw [if_neg h2]
          refine ⟨Nat.le_add_right lo _, ?_⟩
          have hmul : (v - lo) / step * step ≤ v - lo := Nat.div_mul_le_self _ _
          omega

/-- Claim C10: on every viewer interaction the heights handed to the
embedded-frame renderer are exactly the two slider values; the full-width
height always lies in [400, 1600], the bottom-pair height in [300, 1400],
and both default to 600 when the sliders are untouched. -/
theorem page_heights_bounded (inp : ViewerInput) :
    (pageSecs inp).map Sec.height = [full_h inp, pair_h inp, pair_h inp] ∧
    (400 ≤ full_h inp ∧ full_h inp ≤ 1600) ∧
    (300 ≤ pair_h inp ∧ pair_h inp ≤ 1400) ∧
    full_h (ViewerInput.mk none none) = 600 ∧
    pair_h (ViewerInput.mk none none) = 600 := by
  refine ⟨rfl, ?_, ?_, rfl, rfl⟩
  · exact sliderVal_bounds 400 1600 DEFAULT_FULL_HEIGHT 10 inp.fullSel
      (by decide) (by decide)
  · exact sliderVal_bounds 300 1400 DEFAULT_PAIR_HEIGHT 10 inp.pairSel
      (by decide) (by decide)

/-- The empty trace contains no GET. -/
theorem countNetGet_nil (u : String) : countNetGet [] u = 0 := rfl

/-- Unfolding a trace one event at a time. -/
theorem countNetGet_cons (e : DlEvent) (l : List DlEvent) (u : String) :
    countNetGet (e :: l) u = (if e = DlEvent.netGet u then 1 else 0) + countNetGet l u := by
  unfold countNetGet
  by_cases h : e = DlEvent.netGet u
  · simp [List.filter_cons, h]
    omega
  · simp [List.filter_cons, h]

/-- GET counts add over concatenated traces. -/
theorem countNetGet_append (l1 l2 : List DlEvent) (u : String) :
    countNetGet (l1 ++ l2) u = countNetGet l1 u + countNetGet l2 u := by
  unfold countNetGet
  rw [List.filter_append, List.length_append]

/-- One `download_file` call performs at most one GET, and GETs only its
own URL: a trace never contains a GET for any other URL. -/
theorem countNetGet_download_file (w : World) (rn lp u : String) :
    countNetGet (download_file w rn lp).2.1 u ≤ 1 ∧
    (u ≠ DOWNLOAD_BASE ++ rn → countNetGet (download_file w rn lp).2.1 u = 0) := by
  by_cases hfs : (w.fs lp).isSome = true
  · simp [download_file, hfs, countNetGet]
  · cases hnet : w.net (DOWNLOAD_BASE ++ rn) with
    | err =>
        constructor
        · simp only [download_file, hfs]
          simp [hnet, countNetGet_cons, countNetGet_nil]
          split <;> simp
        · intro h
          simp only [download_file, hfs]
          simp [hnet, countNetGet_cons, countNetGet_nil, Ne.symm h]
    | resp status body =>
        by_cases h4 : 400 ≤ status ∧ status < 600
        · constructor
          · simp only [download_file, hfs]
            simp [hnet, h4, countNetGet_cons, countNetGet_nil]
            split <;> simp
          · intro h
            simp only [download_file, hfs]
            simp [hnet, h4, countNetGet_cons, countNetGet_nil, Ne.symm h]
        · by_cases hw : w.writeFails lp = true
          · constructor
            · simp only [download_file, hfs]
              simp [hnet, h4, hw, countNetGet_cons, countNetGet_nil]
              split <;> simp
            · intro h
              simp only [download_file, hfs]
              simp [hnet, h4, hw, countNetGet_cons, countNetGet_nil, Ne.symm h]
          · constructor
            · simp only [download_file, hfs]
              simp [hnet, h4, hw, countNetGet_cons, countNetGet_nil]
              split <;> simp
            · intro h
              simp only [download_file, hfs]
              simp [hnet, h4, hw, countNetGet_cons, countNetGet_nil, Ne.symm h]

/-- Claim C8 (amended): within a single run of the script, no URL is
requested more than once — each of the three assets is fetched at most one
time per run. (Combined with the existence early return, a successful
fetch is never repeated; but a failed fetch is retried by the next run of
the same process, which is what refutes the original per-process-lifetime
form of the claim.) -/
theorem scriptDownloads_at_most_once (w : World) (u : String) :
    countNetGet (scriptDownloads w).2 u ≤ 1 := by
  have hd12 : DOWNLOAD_BASE ++ FULL_CENTER_NAME ≠ DOWNLOAD_BASE ++ BOTTOM_LEFT_NAME := by
    decide
  have hd13 : DOWNLOAD_BASE ++ FULL_CENTER_NAME ≠ DOWNLOAD_BASE ++ BOTTOM_RIGHT_NAME := by
    decide
  have hd23 : DOWNLOAD_BASE ++ BOTTOM_LEFT_NAME ≠ DOWNLOAD_BASE ++ BOTTOM_RIGHT_NAME := by
    decide
  obtain ⟨h1a, h1b⟩ := countNetGet_download_file w FULL_CENTER_NAME FULL_CENTER_PATH u
  obtain ⟨h2a, h2b⟩ := countNetGet_download_file
    (download_file w FULL_CENTER_NAME FULL_CENTER_PATH).1
    BOTTOM_LEFT_NAME BOTTOM_LEFT_MAP_PATH u
  obtain ⟨h3a, h3b⟩ := countNetGet_download_file
    (download_file (download_file w FULL_CENTER_NAME FULL_CENTER_PATH).1
       BOTTOM_LEFT_NAME BOTTOM_LEFT_MAP_PATH).1
    BOTTOM_RIGHT_NAME BOTTOM_RIGHT_MAP_PATH u
  have hgoal : countNetGet (scriptDownloads w).2 u =
      countNetGet (download_file w FULL_CENTER_NAME FULL_CENTER_PATH).2.1 u +
      (countNetGet (download_file (download_file w FULL_CENTER_NAME FULL_CENTER_PATH).1
          BOTTOM_LEFT_NAME BOTTOM_LEFT_MAP_PATH).2.1 u +
       countNetGet (download_file
          (download_file (download_file w FULL_CENTER_NAME FULL_CENTER_PATH).1
             BOTTOM_LEFT_NAME BOTTOM_LEFT_MAP_PATH).1
          BOTTOM_RIGHT_NAME BOTTOM_RIGHT_MAP_PATH).2.1 u) := by
    show countNetGet
        ((download_file w FULL_CENTER_NAME FULL_CENTER_PATH).2.1 ++
          ((download_file (download_file w FULL_CENTER_NAME FULL_CENTER_PATH).1
              BOTTOM_LEFT_NAME BOTTOM_LEFT_MAP_PATH).2.1 ++
           (download_file
              (download_file (download_file w FULL_CENTER_NAME FULL_CENTER_PATH).1
                 BOTTOM_LEFT_NAME BOTTOM_LEFT_MAP_PATH).1
              BOTTOM_RIGHT_NAME BOTTOM_RIGHT_MAP_PATH).2.1)) u = _
    rw [countNetGet_append, countNetGet_append]
  rw [hgoal]
  by_cases e1 : u = DOWNLOAD_BASE ++ FULL_CENTER_NAME
  · have z2 := h2b (by rw [e1]; exact hd12)
    have z3 := h3b (by rw [e1]; exact hd13)
    omega
  · have z1 := h1b e1
    by_cases e2 : u = DOWNLOAD_BASE ++ BOTTOM_LEFT_NAME
    · have z3 := h3b (by rw [e2]; exact hd23)
      omega
    · have z2 := h2b e2
      omega

/-- Counterexample to claim C8 as stated: in a process whose fetches keep
failing, the overlay-map asset stays missing and yet two consecutive
script runs of the same process GET its URL twice. -/
theorem processRuns_refetches_missing_asset :
    (processRuns emptyFailWorld 2).1.fs FULL_CENTER_PATH = none ∧
    countNetGet (processRuns emptyFailWorld 2).2
      (DOWNLOAD_BASE ++ FULL_CENTER_NAME) = 2 := by
  constructor
  · rfl
  · decide

/-- A field forces quoting under the QUOTE_MINIMAL rule the `to_csv` export
uses when it contains the delimiter, the quote character or a
line-terminator character. -/
def csvNeedsQuote (s : String) : Bool :=
  s.data.any (fun ch => decide (ch = ',' ∨ ch = '"' ∨ ch = '\n' ∨ ch = '\r'))

/-- Double every quote character, as the csv writer does inside a quoted
field. -/
def csvEscapeChars : List Char → List Char
  | [] => []
  | ch :: cs =>
      if ch = '"' then '"' :: '"' :: csvEscapeChars cs
      else ch :: csvEscapeChars cs

/-- Encode one field: wrapped in quotes with inner quotes doubled when it
needs quoting, verbatim otherwise. -/
def csvEncodeField (s : String) : List Char :=
  if csvNeedsQuote s then '"' :: (csvEscapeChars s.data ++ ['"']) else s.data

/-- Encode one record: fields joined by the comma delimiter. -/
def csvEncodeRow : List String → List Char
  | [] => []
  | [f] => csvEncodeField f
  | f :: fs => csvEncodeField f ++ ',' :: csvEncodeRow fs

/-- Encode records, each terminated by a line feed, as
`to_csv` does with its default line terminator. -/
def csvEncode : List (List String) → List Char
  | [] => []
  | r :: rs => csvEncodeRow r ++ '\n' :: csvEncode rs

/-- The `df.to_csv(index=False)` export of lines 387-392: the header line
followed by one line per row, no index column. A cell is modelled by its
textual value. -/
def to_csv_noindex (header : List String) (rows : List (List String)) : String :=
  List.asString (csvEncode (header :: rows))

/-- Parse an unquoted field: everything up to the next delimiter or line
terminator. -/
def csvParseBare : List Char → List Char × List Char
  | [] => ([], [])
  | ch :: cs =>
      if ch = ',' ∨ ch = '\n' then ([], ch :: cs)
      else
        match csvParseBare cs with
        | (f, rest) => (ch :: f, rest)

/-- Parse the inside of a quoted field: a doubled quote is a literal quote,
a lone quote closes the field. -/
def csvParseQuoted : List Char → List Char × List Char
  | [] => ([], [])
  | ch :: cs =>
      if ch = '"' then
        match cs with
        | [] => ([], [])
        | ch2 :: cs2 =>
            if ch2 = '"' then
              match csvParseQuoted cs2 with
              | (f, rest) => ('"' :: f, rest)
            else ([], ch2 :: cs2)
      else
        match csvParseQuoted cs with
        | (f, rest) => (ch :: f, rest)

/-- Parse one field, quoted or bare. -/
def csvParseField : List Char → List Char × List Char
  | [] => ([], [])
  | ch :: cs => if ch = '"' then csvParseQuoted cs else csvParseBare (ch :: cs)

/-- Parse one record, the fuel bounding the number of fields: fields
separated by commas, ended by a line feed or the end of input. -/
def csvParseRecord : Nat → List Char → List String × List Char
  | 0, cs => ([], cs)
  | fuel + 1, cs =>
      match csvParseField cs with
      | (f, []) => ([f.asString], [])
      | (f, ch :: rest) =>
          if ch = ',' then
            match csvParseRecord fuel rest with
            | (fs, rest2) => (f.asString :: fs, rest2)
          else if ch = '\n' then ([f.asString], rest)
          else ([f.asString], ch :: rest)

/-- Parse a character stream as a sequence of records, fuel-bounded. -/
def csvParseLines : Nat → List Char → List (List String)
  | 0, _ => []
  | fuel + 1, cs =>
      match cs with
      | [] => []
      | _ :: _ =>
          match csvParseRecord (fuel + 1) cs with
          | (row, rest) => row :: csvParseLines fuel rest

/-- Parse a csv document; the fuel is one more than the length of the
input, which the round-trip lemmas show is always enough for an encoded
table. -/
def csvParse (s : String) : List (List String) :=
  csvParseLines (s.data.length + 1) s.data

/-- Unpacking a string rebuilt from its character list. -/
theorem asString_data (s : String) : List.asString s.data = s := by
  cases s
  rfl

/-- Inside a quoted field, an ordinary character is consumed into the
field. -/
theorem csvParseQuoted_cons_ne (a : Char) (cs : List Char) (ha : ¬a = '"') :
    csvParseQuoted (a :: cs) = (a :: (csvParseQuoted cs).1, (csvParseQuoted cs).2) := by
  rw [csvParseQuoted.eq_def]
  simp [ha]

/-- Parsing the escaped body of a quoted field consumes it up to the
closing quote: whatever was doubled comes back single. -/
theorem csvParseQuoted_escape (f : List Char) (ch : Char) (rest : List Char)
    (hch : ¬ch = '"') :
    csvParseQuoted (csvEscapeChars f ++ '"' :: ch :: rest) = (f, ch :: rest) := by
  induction f with
  | nil => simp [csvEscapeChars, csvParseQuoted, hch]
  | cons a f ih =>
      by_cases ha : a = '"'
      · subst ha
        simp [csvEscapeChars, csvParseQuoted, ih]
      · simp only [csvEscapeChars]
        rw [if_neg ha]
        show csvParseQuoted (a :: (csvEscapeChars f ++ '"' :: ch :: rest)) = (a :: f, ch :: rest)
        rw [csvParseQuoted_cons_ne a _ ha, ih]

/-- Parsing a bare field free of delimiters and line feeds stops exactly at
the delimiter that follows it. -/
theorem csvParseBare_clean (f : List Char) (ch : Char) (rest : List Char)
    (hf : ∀ c ∈ f, ¬(c = ',' ∨ c = '\n')) (hch : ch = ',' ∨ ch = '\n') :
    csvParseBare (f ++ ch :: rest) = (f, ch :: rest) := by
  induction f with
  | nil =>
      show csvParseBare (ch :: rest) = ([], ch :: rest)
      simp only [csvParseBare]
      rw [if_pos hch]
  | cons a f ih =>
      have ha := hf a (by simp)
      have hfr : ∀ c ∈ f, ¬(c = ',' ∨ c = '\n') := fun c hc => hf c (by simp [hc])
      show csvParseBare (a :: (f ++ ch :: rest)) = (a :: f, ch :: rest)
      simp only [csvParseBare]
      rw [if_neg ha, ih hfr]

/-- Parsing an encoded field stops exactly at the delimiter that follows it
and recovers the field verbatim. -/
theorem csvParseField_encode (s : String) (ch : Char) (rest : List Char)
    (hch : ch = ',' ∨ ch = '\n') :
    csvParseField (csvEncodeField s ++ ch :: rest) = (s.data, ch :: rest) := by
  have hch' : ¬ch = '"' := by
    rcases hch with h | h <;> rw [h] <;> decide
  by_cases hq : csvNeedsQuote s = true
  · have hshape : csvEncodeField s ++ ch :: rest =
        '"' :: (csvEscapeChars s.data ++ '"' :: ch :: rest) := by
      simp [csvEncodeField, hq]
    rw [hshape]
    show csvParseQuoted (csvEscapeChars s.data ++ '"' :: ch :: rest) = (s.data, ch :: rest)
    exact csvParseQuoted_escape s.data ch rest hch'
  · have hclean : ∀ c ∈ s.data, ¬(c = ',' ∨ c = '\n') := by
      intro c hc hbad
      apply absurd hq
      simp only [not_not]
      unfold csvNeedsQuote
      rw [List.any_eq_true]
      refine ⟨c, hc, ?_⟩
      rcases hbad with h | h
      · simp [h]
      · simp [h]
    have hshape : csvEncodeField s = s.data := by
      simp [csvEncodeField, hq]
    rw [hshape]
    cases hd : s.data with
    | nil =>
        show csvParseField (ch :: rest) = ([], ch :: rest)
        have : ¬ch = '"' := hch'
        simp only [csvParseField]
        rw [if_neg this]
        show csvParseBare ([] ++ ch :: rest) = ([], ch :: rest)
        exact csvParseBare_clean [] ch rest (by simp) hch
    | cons a t =>
        have ha : ¬a = '"' := by
          intro h
          apply absurd hq
          simp only [not_not]
          unfold csvNeedsQuote
          rw [List.any_eq_true]
          exact ⟨a, by rw [hd]; simp, by simp [h]⟩
        have hclean' : ∀ c ∈ a :: t, ¬(c = ',' ∨ c = '\n') := by
          rw [← hd]; exact hclean
        show csvParseField (a :: (t ++ ch :: rest)) = (a :: t, ch :: rest)
        simp only [csvParseField]
        rw [if_neg ha]
        exact csvParseBare_clean (a :: t) ch rest hclean' hch

/-- Unfolding one step of the record parser. -/
theorem csvParseRecord_succ (fuel : Nat) (cs : List Char) :
    csvParseRecord (fuel + 1) cs =
      (match csvParseField cs with
       | (f, []) => ([f.asString], [])
       | (f, ch :: rest) =>
           if ch = ',' then
             match csvParseRecord fuel rest with
             | (fs, rest2) => (f.asString :: fs, rest2)
           else if ch = '\n' then ([f.asString], rest)
           else ([f.asString], ch :: rest)) := rfl

/-- Parsing an encoded record consumes it up to and including its line
feed and recovers exactly its fields. -/
theorem csvParseRecord_encode (row : List String) (rest : List Char) :
    ∀ fuel : Nat, row ≠ [] → row.length ≤ fuel →
    csvParseRecord fuel (csvEncodeRow row ++ '\n' :: rest) = (row, rest) := by
  induction row with
  | nil => intro fuel h _; exact absurd rfl h
  | cons f row' ih =>
      intro fuel _ hfuel
      cases fuel with
      | zero => simp at hfuel
      | succ n =>
          cases row' with
          | nil =>
              have hfield := csvParseField_encode f '\n' rest (Or.inr rfl)
              show csvParseRecord (n + 1) (csvEncodeRow [f] ++ '\n' :: rest) = ([f], rest)
              have hshape : csvEncodeRow [f] = csvEncodeField f := rfl
              rw [hshape, csvParseRecord_succ, hfield]
              simp [asString_data]
          | cons f2 t =>
              have hlen : (f2 :: t).length ≤ n := by
                simp only [List.length_cons] at hfuel ⊢
                omega
              have hrec := ih n (List.cons_ne_nil f2 t) hlen
              have hfield := csvParseField_encode f ','
                (csvEncodeRow (f2 :: t) ++ '\n' :: rest) (Or.inl rfl)
              have hshape : csvEncodeRow (f :: f2 :: t) ++ '\n' :: rest =
                  csvEncodeField f ++ ',' :: (csvEncodeRow (f2 :: t) ++ '\n' :: rest) := by
                simp [csvEncodeRow]
              rw [hshape, csvParseRecord_succ, hfield]
              simp [hrec, asString_data]

/-- An encoded record is at most one shorter than its field count: the
separating commas pad every field but the last. -/
theorem csvEncodeRow_length (row : List String) :
    row.length ≤ (csvEncodeRow row).length + 1 := by
  induction row with
  | nil => simp [csvEncodeRow]
  | cons f row' ih =>
      cases row' with
      | nil => simp [csvEncodeRow]
      | cons f2 t =>
          have hshape : csvEncodeRow (f :: f2 :: t) =
              csvEncodeField f ++ ',' :: csvEncodeRow (f2 :: t) := by
            simp [csvEncodeRow]
          rw [hshape]
          simp only [List.length_cons, List.length_append] at ih ⊢
          omega

/-- Unfolding one step of the stream parser on a nonempty stream. -/
theorem csvParseLines_succ_cons (fuel : Nat) (a : Char) (l : List Char) :
    csvParseLines (fuel + 1) (a :: l) =
      (match csvParseRecord (fuel + 1) (a :: l) with
       | (row, rest) => row :: csvParseLines fuel rest) := rfl

/-- Parsing an encoded table with fuel beyond its length recovers every
record. -/
theorem csvParseLines_encode (rows : List (List String)) :
    ∀ fuel : Nat, (∀ r ∈ rows, r ≠ []) → (csvEncode rows).length < fuel →
    csvParseLines fuel (csvEncode rows) = rows := by
  induction rows with
  | nil =>
      intro fuel _ _
      cases fuel with
      | zero => rfl
      | succ n => rfl
  | cons r rs ih =>
      intro fuel hne hfuel
      cases fuel with
      | zero => simp at hfuel
      | succ n =>
          have hr : r ≠ [] := hne r (by simp)
          have hrs : ∀ x ∈ rs, x ≠ [] := fun x hx => hne x (by simp [hx])
          have hrowlen := csvEncodeRow_length r
          have henc : csvEncode (r :: rs) = csvEncodeRow r ++ '\n' :: csvEncode rs := by
            simp [csvEncode]
          rw [henc] at hfuel ⊢
          simp only [List.length_append, List.length_cons] at hfuel
          have hrecfuel : r.length ≤ n + 1 := by omega
          have hrest : (csvEncode rs).length < n := by omega
          have hrec := csvParseRecord_encode r (csvEncode rs) (n + 1) hr hrecfuel
          cases he : csvEncodeRow r with
          | nil =>
              rw [he] at hrec
              rw [List.nil_append] at hrec ⊢
              rw [csvParseLines_succ_cons, hrec]
              simp [ih n hrs hrest]
          | cons a l =>
              rw [he] at hrec
              rw [List.cons_append] at hrec ⊢
              rw [csvParseLines_succ_cons, hrec]
              simp [ih n hrs hrest]

/-- Claim C9: for every loaded table with at least one column and
rectangular rows, parsing the flat-file export generated from the
in-memory table yields exactly the displayed header and rows back — the
delimited-text download round-trips to the same row and column values. -/
theorem csv_roundtrip (header : List String) (rows : List (List String))
    (hh : header ≠ []) (hrect : ∀ r ∈ rows, r.length = header.length) :
    csvParse (to_csv_noindex header rows) = header :: rows := by
  have hpos : 0 < header.length := List.length_pos.mpr hh
  have hne : ∀ r ∈ header :: rows, r ≠ [] := by
    intro r hr
    rcases List.mem_cons.mp hr with h | h
    · rw [h]; exact hh
    · intro hnil
      have hlen := hrect r h
      rw [hnil] at hlen
      simp at hlen
      omega
  show csvParseLines ((csvEncode (header :: rows)).length + 1)
      (csvEncode (header :: rows)) = header :: rows
  exact csvParseLines_encode (header :: rows) _ hne (Nat.lt_succ_self _)

/-- Witness for C9 on a concrete table whose cells exercise the quoting
rules (a comma and an embedded quote). -/
theorem csv_roundtrip_witness :
    ((["a", "b"] : List String) ≠ [] ∧
       (∀ r ∈ ([["1", "x,y"], ["2", "say \"hi\""]] : List (List String)),
          r.length = (["a", "b"] : List String).length)) ∧
    csvParse (to_csv_noindex ["a", "b"] [["1", "x,y"], ["2", "say \"hi\""]]) =
      (["a", "b"] : List String) :: [["1", "x,y"], ["2", "say \"hi\""]] :=
  ⟨⟨by decide, by decide⟩,
   csv_roundtrip ["a", "b"] [["1", "x,y"], ["2", "say \"hi\""]] (by decide) (by decide)⟩
